import Mathlib

/-!
Verification of the Anthropic provider module for Amplifier
(`amplifier_module_provider_anthropic`).

The development shallowly embeds the message-conversion pipeline of
`AnthropicProvider` (`src/amplifier_module_provider_anthropic/__init__.py`):
message splitting by role, developer-message context wrapping, conversation
conversion to the vendor turn format, response normalization, and parameter
resolution.  The tool-sequence repair engine and validator
(`_repair_incomplete_tool_sequences`, `_validate_anthropic_tool_consistency`)
are called by the repository's tests but their bodies are not part of the
provider source file; they are modelled from the specification, as marked in
their doc comments.
-/

namespace AmplifierAnthropic

/-- Argument mappings (Python dicts used as tool inputs) are modelled as
association lists of string keys and string values; only ordering, equality
and emptiness of the mapping matter to the verified properties. -/
abbrev ArgMap := List (String × String)

/-- A vendor-format content block: `text`, `thinking`, `tool_use` or
`tool_result`, mirroring the tagged dicts built by `_convert_messages`. -/
inductive Block where
  | text (t : String)
  | thinking (thinking : String) (signature : Option String)
  | toolUse (id name : String) (input : ArgMap)
  | toolResult (tool_use_id : String) (content : String)
  deriving DecidableEq, Repr

/-- The content of a vendor-format turn: either a plain string or an array
of typed blocks, as in the Anthropic wire format. -/
inductive VContent where
  | str (s : String)
  | blocks (bs : List Block)
  deriving DecidableEq, Repr

/-- One vendor-format turn (`{"role": ..., "content": ...}`). -/
structure Turn where
  role : String
  content : VContent
  deriving DecidableEq, Repr

/-- A tool-call record inside an incoming assistant message
(`tc.get("id", "")`, `tc.get("tool", "")`, `tc.get("arguments", {})`). -/
structure ToolCallRec where
  id : String
  tool : String
  arguments : ArgMap
  deriving DecidableEq, Repr

/-- An incoming amplifier-core message after `model_dump()`: a role tag, a
string content, and the optional fields read by `_convert_messages`
(`tool_call_id` on tool messages, `tool_calls` and `thinking_block` on
assistant messages).  An absent or `None` field is `none` / `[]`. -/
structure Message where
  role : String
  content : String
  tool_call_id : Option String := none
  tool_calls : List ToolCallRec := []
  thinking_block : Option Block := none
  deriving DecidableEq, Repr

/-- The blocks of a turn (a string content has no blocks). -/
def contentBlocks (t : Turn) : List Block :=
  match t.content with
  | VContent.str _ => []
  | VContent.blocks bs => bs

/-- The `tool_use` ids of a list of blocks, in order. -/
def useIds (bs : List Block) : List String :=
  bs.filterMap fun b =>
    match b with
    | Block.toolUse id _ _ => some id
    | _ => none

/-- The `tool_result` ids of a list of blocks, in order. -/
def resultIds (bs : List Block) : List String :=
  bs.filterMap fun b =>
    match b with
    | Block.toolResult id _ => some id
    | _ => none

/-- The `tool_use` ids of a turn. -/
def toolUseIds (t : Turn) : List String := useIds (contentBlocks t)

/-- The `tool_result` ids of a turn. -/
def toolResultIds (t : Turn) : List String := resultIds (contentBlocks t)

/-- The `tool_result` block built from one tool-role message: a missing or
empty `tool_call_id` falls back to the placeholder id `"unknown"`
(`__init__.py` lines 335-346). -/
def toolResultBlockOf (m : Message) : Block :=
  let tool_use_id :=
    match m.tool_call_id with
    | none => "unknown"
    | some s => if s = "" then "unknown" else s
  Block.toolResult tool_use_id m.content

/-- Holds (as `true`) when a tool-role message lacks a usable `tool_call_id`, i.e. the
case in which `_convert_messages` logs a warning and substitutes
`"unknown"`. -/
def missingToolCallId (m : Message) : Bool :=
  match m.tool_call_id with
  | none => true
  | some s => s = ""

/-- The content-block expansion of an assistant message carrying tool calls
or a thinking block: thinking block first, then the text if non-empty, then
one `tool_use` block per tool call (`__init__.py` lines 361-388). -/
def assistantBlocks (m : Message) : List Block :=
  (match m.thinking_block with
   | some b => [b]
   | none => []) ++
  (if m.content = "" then [] else [Block.text m.content]) ++
  m.tool_calls.map (fun tc => Block.toolUse tc.id tc.tool tc.arguments)

/-- `True` for tool-role messages; the batching predicate of the
`while` loop in `_convert_messages`. -/
def isToolRole (m : Message) : Bool := m.role == "tool"

/-- The fixed context delimiter applied to developer messages
(`wrapped = f"<context_file>\n{content}\n</context_file>"`). -/
def wrap_context (content : String) : String :=
  "<context_file>\n" ++ content ++ "\n</context_file>"

/-- Embedding of `AnthropicProvider._convert_messages`: system messages are
skipped, maximal runs of consecutive tool messages are merged into a single
user turn of `tool_result` blocks, assistant messages expand to block
sequences when they carry tool calls or a thinking block, developer messages
become wrapped user turns, and user messages pass through. -/
def convert_messages : List Message → List Turn
  | [] => []
  | msg :: rest =>
    if msg.role == "system" then
      convert_messages rest
    else if msg.role == "tool" then
      let run := msg :: rest.takeWhile isToolRole
      let rest2 := rest.dropWhile isToolRole
      Turn.mk "user" (VContent.blocks (run.map toolResultBlockOf)) ::
        convert_messages rest2
    else if msg.role == "assistant" then
      (if !msg.tool_calls.isEmpty then
        Turn.mk "assistant" (VContent.blocks (assistantBlocks msg))
      else if msg.thinking_block.isSome then
        Turn.mk "assistant" (VContent.blocks (assistantBlocks msg))
      else
        Turn.mk "assistant" (VContent.str msg.content)) :: convert_messages rest
    else if msg.role == "developer" then
      Turn.mk "user" (VContent.str (wrap_context msg.content)) ::
        convert_messages rest
    else
      Turn.mk "user" (VContent.str msg.content) :: convert_messages rest
termination_by msgs => msgs.length
decreasing_by
  all_goals simp only [List.length_cons]
  all_goals try omega
  all_goals
    (have h := (List.dropWhile_sublist (l := rest) (p := isToolRole)).length_le
     omega)

/-- A repair record: one synthetic fix (which id, which defect class).
Modelled from the spec: "Repair Record: describes one synthetic fix applied
(which id, which kind of defect)". -/
structure RepairRecord where
  id : String
  kind : String
  deriving DecidableEq, Repr

/-- The fixed placeholder content of a synthetic `tool_result`.
Modelled from the spec: "a fixed SYSTEM ERROR placeholder string explaining
the result was lost". -/
def system_error_placeholder : String :=
  "SYSTEM ERROR: tool execution result was lost and could not be recovered."

/-- A synthetic `tool_result` block for an outstanding `tool_use` id. -/
def syntheticResult (id : String) : Block :=
  Block.toolResult id system_error_placeholder

/-- A block is synthetic when it is a placeholder `tool_result` produced by
the repair engine. -/
def IsSynthetic (b : Block) : Prop := ∃ id, b = syntheticResult id

/-- The synthetic user turn carrying one placeholder `tool_result` per
outstanding id. -/
def synthTurn (ids : List String) : Turn :=
  Turn.mk "user" (VContent.blocks (ids.map syntheticResult))

/-- The guard of the repair and validation loops: an assistant turn carrying
at least one `tool_use` block. -/
def isAssistantWithToolUse (t : Turn) : Bool :=
  t.role == "assistant" && !(toolUseIds t).isEmpty

/-- Modelled from the spec: `_repair_incomplete_tool_sequences` is called by
the repository's tests but its body is not part of the provider source file.
Walks the turns in order; for each assistant turn with `tool_use` ids:
if no turn follows, a synthetic user turn of placeholder results is inserted;
if the next turn is not a user turn, a synthetic user turn is inserted before
it; if the next user turn has plain string content, that content is replaced
by the full list of placeholder results (as the repository's test
`test_repair_creates_synthetic_user_message` requires); if the next user turn
has block content, one placeholder result per missing id is appended after the
existing blocks.  Ids with a `tool_result` but no matching `tool_use` are left
untouched for the validator.  Returns the repaired turns together with the
repair records (the Python version also returns their count). -/
def repair_incomplete_tool_sequences : List Turn → List Turn × List RepairRecord
  | [] => ([], [])
  | [t] =>
    if isAssistantWithToolUse t then
      let ids := toolUseIds t
      ([t, synthTurn ids], ids.map fun id => RepairRecord.mk id "missing_following_turn")
    else
      ([t], [])
  | t :: u :: rest2 =>
    if isAssistantWithToolUse t then
      let ids := toolUseIds t
      if u.role == "user" then
        match u.content with
        | VContent.blocks bs =>
          let present := resultIds bs
          let missing := ids.filter fun id => !(present.contains id)
          let tail := repair_incomplete_tool_sequences rest2
          (t :: Turn.mk u.role (VContent.blocks (bs ++ missing.map syntheticResult)) :: tail.1,
           (missing.map fun id => RepairRecord.mk id "missing_tool_result") ++ tail.2)
        | VContent.str _ =>
          let tail := repair_incomplete_tool_sequences rest2
          (t :: synthTurn ids :: tail.1,
           (ids.map fun id => RepairRecord.mk id "missing_following_turn") ++ tail.2)
      else
        let tail := repair_incomplete_tool_sequences (u :: rest2)
        (t :: synthTurn ids :: tail.1,
         (ids.map fun id => RepairRecord.mk id "missing_following_turn") ++ tail.2)
    else
      let tail := repair_incomplete_tool_sequences (u :: rest2)
      (t :: tail.1, tail.2)

/-- The repaired turn sequence. -/
def repaired (ts : List Turn) : List Turn :=
  (repair_incomplete_tool_sequences ts).1

/-- The repair records produced on a sequence. -/
def repairRecords (ts : List Turn) : List RepairRecord :=
  (repair_incomplete_tool_sequences ts).2

/-- Modelled from the spec: `_validate_anthropic_tool_consistency` is called
by the repository's tests but its body is not part of the provider source
file.  Scans turns left to right; for each assistant turn carrying `tool_use`
blocks it checks, in order: a following turn exists, its role is user, every
`tool_use` id has a matching `tool_result` id there, and every `tool_result`
id there matches a `tool_use` id.  Fails on the first violation with an error
naming the violation kind and the offending ids; returns unit on success. -/
def validate_anthropic_tool_consistency : List Turn → Except String Unit
  | [] => Except.ok ()
  | t :: rest =>
    if isAssistantWithToolUse t then
      let ids := toolUseIds t
      match rest with
      | [] =>
        Except.error ("tool_use with no following message: ids " ++ String.intercalate ", " ids)
      | u :: _ =>
        if u.role != "user" then
          Except.error ("expected user role with tool_results after tool_use, got role " ++ u.role)
        else
          let results := toolResultIds u
          let missing := ids.filter fun id => !(results.contains id)
          let orphaned := results.filter fun id => !(ids.contains id)
          if !missing.isEmpty then
            Except.error ("missing matching tool_result for ids " ++ String.intercalate ", " missing)
          else if !orphaned.isEmpty then
            Except.error ("tool_result without matching tool_use: ids " ++ String.intercalate ", " orphaned)
          else
            validate_anthropic_tool_consistency rest
    else
      validate_anthropic_tool_consistency rest

/-- A content block of a raw vendor (Anthropic) response. -/
inductive RespBlock where
  | text (t : String)
  | thinking (thinking : String) (signature : Option String)
  | toolUse (id name : String) (input : ArgMap)
  deriving DecidableEq, Repr

/-- Vendor usage counters (`response.usage`). -/
structure AnthropicUsage where
  input_tokens : Nat
  output_tokens : Nat
  deriving DecidableEq, Repr

/-- A raw vendor response: content blocks, usage, stop reason. -/
structure AnthropicResponse where
  content : List RespBlock
  usage : AnthropicUsage
  stop_reason : String
  deriving DecidableEq, Repr

/-- A normalized content block of a `ChatResponse`
(`TextBlock` / `ThinkingBlock` / `ToolCallBlock`). -/
inductive CBlock where
  | textB (text : String)
  | thinkingB (thinking : String) (signature : Option String)
  | toolCallB (id name : String) (input : ArgMap)
  deriving DecidableEq, Repr

/-- A normalized tool call (`ToolCall(id=..., name=..., arguments=...)`). -/
structure ToolCall where
  id : String
  name : String
  arguments : ArgMap
  deriving DecidableEq, Repr

/-- Normalized usage with the summed total. -/
structure Usage where
  input_tokens : Nat
  output_tokens : Nat
  total_tokens : Nat
  deriving DecidableEq, Repr

/-- A normalized chat response. -/
structure ChatResponse where
  content : List CBlock
  tool_calls : Option (List ToolCall)
  usage : Usage
  finish_reason : String
  deriving DecidableEq, Repr

/-- The normalized block built from one vendor block, as in the loop of
`_convert_to_chat_response` (`__init__.py` lines 444-453). -/
def convBlock : RespBlock → CBlock
  | RespBlock.text t => CBlock.textB t
  | RespBlock.thinking th sig => CBlock.thinkingB th sig
  | RespBlock.toolUse id name input => CBlock.toolCallB id name input

/-- The tool-call entry appended for a vendor block: only `tool_use` blocks
contribute one (`__init__.py` lines 451-453). -/
def toolCallOf : RespBlock → Option ToolCall
  | RespBlock.toolUse id name input => some (ToolCall.mk id name input)
  | _ => none

/-- Embedding of `AnthropicProvider._convert_to_chat_response`: the loop over
`response.content` appends one normalized block per vendor block and one
tool-call entry per `tool_use` block; `tool_calls` is `None` when the list is
empty (`tool_calls if tool_calls else None`); usage counters are copied and
the total is their sum; the stop reason passes through. -/
def convert_to_chat_response (response : AnthropicResponse) : ChatResponse :=
  let content_blocks := response.content.map convBlock
  let tool_calls := response.content.filterMap toolCallOf
  { content := content_blocks
    tool_calls := if tool_calls.isEmpty then none else some tool_calls
    usage := Usage.mk response.usage.input_tokens response.usage.output_tokens
      (response.usage.input_tokens + response.usage.output_tokens)
    finish_reason := response.stop_reason }

/-- Embedding of `AnthropicProvider.parse_tool_calls`: returns `[]` when the
response carries no tool calls, otherwise keeps only the calls whose argument
mapping is non-empty (`if not tc.arguments: continue`). -/
def parse_tool_calls (response : ChatResponse) : List ToolCall :=
  match response.tool_calls with
  | none => []
  | some tcs =>
    if tcs.isEmpty then []
    else tcs.filter fun tc => !tc.arguments.isEmpty

/-- Python truthiness-based defaulting on an optional integer field:
`request.max_output_tokens or default` (`None` and `0` are falsy). -/
def py_or_nat (v : Option Nat) (default : Nat) : Nat :=
  match v with
  | none => default
  | some n => if n = 0 then default else n

/-- Python truthiness-based defaulting on an optional float field:
`request.temperature or default` (`None` and `0.0` are falsy); floats are
modelled as rationals. -/
def py_or_rat (v : Option ℚ) (default : ℚ) : ℚ :=
  match v with
  | none => default
  | some t => if t = 0 then default else t

/-- The `max_tokens` request parameter as assembled on `__init__.py` line
165: `request.max_output_tokens or kwargs.get("max_tokens", self.max_tokens)`. -/
def resolved_max_tokens (request_max : Option Nat) (kwargs_max : Option Nat)
    (self_max : Nat) : Nat :=
  py_or_nat request_max (kwargs_max.getD self_max)

/-- The `temperature` request parameter as assembled on `__init__.py` line
166: `request.temperature or kwargs.get("temperature", self.temperature)`. -/
def resolved_temperature (request_temp : Option ℚ) (kwargs_temp : Option ℚ)
    (self_temp : ℚ) : ℚ :=
  py_or_rat request_temp (kwargs_temp.getD self_temp)

/-- The system messages of a request (`__init__.py` line 123). -/
def system_msgs (msgs : List Message) : List Message :=
  msgs.filter fun m => m.role == "system"

/-- The developer messages of a request (`__init__.py` line 124). -/
def developer_msgs (msgs : List Message) : List Message :=
  msgs.filter fun m => m.role == "developer"

/-- The conversation messages of a request (`__init__.py` line 125). -/
def conversation (msgs : List Message) : List Message :=
  msgs.filter fun m => m.role == "user" || m.role == "assistant" || m.role == "tool"

/-- The combined system preamble (`__init__.py` lines 132-134). -/
def system_preamble (msgs : List Message) : Option String :=
  if (system_msgs msgs).isEmpty then none
  else some (String.intercalate "\n\n" ((system_msgs msgs).map fun m => m.content))

/-- The XML-wrapped context turns built from the developer messages
(`__init__.py` lines 141-151). -/
def context_user_msgs (msgs : List Message) : List Turn :=
  (developer_msgs msgs).map fun m => Turn.mk "user" (VContent.str (wrap_context m.content))

/-- The complete turn sequence assembled by `_complete_chat_request` and
passed as the `messages` request parameter (`__init__.py` lines 154-164):
context turns first, then the converted conversation.  No repair or
validation step is applied between this assembly and the vendor API call. -/
def all_messages (msgs : List Message) : List Turn :=
  context_user_msgs msgs ++ convert_messages (conversation msgs)

/-! ## Specification predicates and concrete fixtures -/

/-- The edit scripts the repair engine may apply to a turn sequence: keep a
turn unchanged, append synthetic blocks after the existing blocks of a turn,
replace the string content of a turn by synthetic blocks, or insert a fresh
synthetic user turn.  Existing blocks are never removed or reordered, and
synthetic blocks only ever follow them. -/
inductive RepairRel : List Turn → List Turn → Prop where
  | nil : RepairRel [] []
  | keep (t : Turn) {s s2 : List Turn} :
      RepairRel s s2 → RepairRel (t :: s) (t :: s2)
  | appendBlocks (r : String) (bs news : List Block) {s s2 : List Turn} :
      (∀ b ∈ news, IsSynthetic b) → RepairRel s s2 →
      RepairRel (Turn.mk r (VContent.blocks bs) :: s)
        (Turn.mk r (VContent.blocks (bs ++ news)) :: s2)
  | replaceStr (oldStr : String) (news : List Block) {s s2 : List Turn} :
      (∀ b ∈ news, IsSynthetic b) → RepairRel s s2 →
      RepairRel (Turn.mk "user" (VContent.str oldStr) :: s)
        (Turn.mk "user" (VContent.blocks news) :: s2)
  | insertTurn (news : List Block) {s s2 : List Turn} :
      (∀ b ∈ news, IsSynthetic b) → RepairRel s s2 →
      RepairRel s (Turn.mk "user" (VContent.blocks news) :: s2)

/-- The pairing condition repair establishes at the head of a sequence: when
the head is an assistant turn carrying `tool_use` blocks, the next turn
exists, is a user turn, and its `tool_result` ids cover the `tool_use` ids. -/
def pairOK (t : Turn) (rest : List Turn) : Prop :=
  isAssistantWithToolUse t = true →
    match rest with
    | [] => False
    | u :: _ => u.role = "user" ∧ ∀ id ∈ toolUseIds t, id ∈ toolResultIds u

/-- Every assistant turn carrying `tool_use` blocks is immediately followed
by a user turn whose `tool_result` ids cover its `tool_use` ids. -/
def wellFormedPairs : List Turn → Prop
  | [] => True
  | t :: rest => pairOK t rest ∧ wellFormedPairs rest

/-- The invariant checked by the validator: every assistant turn carrying
`tool_use` blocks is followed by a user turn whose `tool_result` ids are
exactly matched against its `tool_use` ids (both inclusions). -/
def ValidSeq : List Turn → Prop
  | [] => True
  | t :: rest =>
    (isAssistantWithToolUse t = true →
      match rest with
      | [] => False
      | u :: _ => u.role = "user" ∧
          (∀ id ∈ toolUseIds t, id ∈ toolResultIds u) ∧
          (∀ id ∈ toolResultIds u, id ∈ toolUseIds t))
    ∧ ValidSeq rest

/-- A sequence carrying no tool blocks at all. -/
def NoToolBlocks (S : List Turn) : Prop :=
  ∀ t ∈ S, toolUseIds t = [] ∧ toolResultIds t = []

instance (S : List Turn) : Decidable (NoToolBlocks S) :=
  List.decidableBAll _ S

/-- Recognizes `tool_use` vendor blocks. -/
def isToolUseBlock : RespBlock → Bool
  | RespBlock.toolUse _ _ _ => true
  | _ => false

/-- The request of `test_repair_creates_synthetic_user_message`, in
amplifier-core `Message` form: the assistant issues a tool call whose result
message is missing from the transcript. -/
def c1_request_messages : List Message :=
  [Message.mk "user" "Run ls" none [] none,
   Message.mk "assistant" "" none [ToolCallRec.mk "toolu_123" "bash" [("cmd", "ls")]] none,
   Message.mk "user" "Thanks" none [] none]

/-- A concrete vendor response carrying an empty-argument tool call, a
non-empty one, and a text block. -/
def c7_response : AnthropicResponse :=
  AnthropicResponse.mk
    [RespBlock.text "hi",
     RespBlock.toolUse "t1" "bash" [],
     RespBlock.toolUse "t2" "read" [("path", "x")]]
    (AnthropicUsage.mk 3 4) "tool_use"

section ModelSanityChecks

/- The scenarios of `src/tests/test_tool_validation.py`, replayed against the
modelled repair engine and validator. -/

example :
    convert_messages
      [Message.mk "user" "hi" none [] none,
       Message.mk "tool" "r1" (some "a") [] none,
       Message.mk "tool" "r2" none [] none,
       Message.mk "user" "bye" none [] none] =
      [Turn.mk "user" (VContent.str "hi"),
       Turn.mk "user" (VContent.blocks
         [Block.toolResult "a" "r1", Block.toolResult "unknown" "r2"]),
       Turn.mk "user" (VContent.str "bye")] := by
  simp +decide [convert_messages, toolResultBlockOf, isToolRole]

example :
    repair_incomplete_tool_sequences
      [Turn.mk "user" (VContent.str "Run ls"),
       Turn.mk "assistant" (VContent.blocks [Block.toolUse "toolu_123" "bash" [("cmd", "ls")]]),
       Turn.mk "user" (VContent.str "Thanks")] =
    ([Turn.mk "user" (VContent.str "Run ls"),
      Turn.mk "assistant" (VContent.blocks [Block.toolUse "toolu_123" "bash" [("cmd", "ls")]]),
      Turn.mk "user" (VContent.blocks [Block.toolResult "toolu_123" system_error_placeholder])],
     [RepairRecord.mk "toolu_123" "missing_following_turn"]) := by decide

example :
    repair_incomplete_tool_sequences
      [Turn.mk "assistant" (VContent.blocks
        [Block.text "I will run a command",
         Block.toolUse "toolu_orphan" "bash" [("cmd", "ls")]])] =
    ([Turn.mk "assistant" (VContent.blocks
        [Block.text "I will run a command",
         Block.toolUse "toolu_orphan" "bash" [("cmd", "ls")]]),
      Turn.mk "user" (VContent.blocks [Block.toolResult "toolu_orphan" system_error_placeholder])],
     [RepairRecord.mk "toolu_orphan" "missing_following_turn"]) := by decide

example :
    repair_incomplete_tool_sequences
      [Turn.mk "assistant" (VContent.blocks
        [Block.toolUse "toolu_expected" "bash" [],
         Block.toolUse "toolu_missing" "read" []]),
       Turn.mk "user" (VContent.blocks
        [Block.toolResult "toolu_expected" "result 1"])] =
    ([Turn.mk "assistant" (VContent.blocks
        [Block.toolUse "toolu_expected" "bash" [],
         Block.toolUse "toolu_missing" "read" []]),
      Turn.mk "user" (VContent.blocks
        [Block.toolResult "toolu_expected" "result 1",
         Block.toolResult "toolu_missing" system_error_placeholder])],
     [RepairRecord.mk "toolu_missing" "missing_tool_result"]) := by decide

example :
    validate_anthropic_tool_consistency
      [Turn.mk "assistant" (VContent.blocks [Block.toolUse "toolu_123" "bash" []]),
       Turn.mk "assistant" (VContent.str "this should not be here")] =
    Except.error "expected user role with tool_results after tool_use, got role assistant" := rfl

example :
    validate_anthropic_tool_consistency
      [Turn.mk "assistant" (VContent.blocks [Block.toolUse "toolu_correct" "bash" []]),
       Turn.mk "user" (VContent.blocks
        [Block.toolResult "toolu_correct" "correct result",
         Block.toolResult "toolu_stale" "orphaned from earlier"])] =
    Except.error "tool_result without matching tool_use: ids toolu_stale" := rfl

example :
    validate_anthropic_tool_consistency
      [Turn.mk "assistant" (VContent.blocks [Block.toolUse "toolu_1" "bash" [], Block.toolUse "toolu_2" "read" []]),
       Turn.mk "user" (VContent.blocks
        [Block.toolResult "toolu_1" "bash result",
         Block.toolResult "toolu_2" "file content"])] =
    Except.ok () := rfl

example :
    validate_anthropic_tool_consistency
      [Turn.mk "user" (VContent.str "Hello"),
       Turn.mk "assistant" (VContent.str "Hi there!"),
       Turn.mk "user" (VContent.str "How are you?"),
       Turn.mk "assistant" (VContent.str "I am doing well, thanks!")] =
    Except.ok () := rfl

end ModelSanityChecks

/-! ## Helper lemmas -/

theorem resultIds_append (bs cs : List Block) :
    resultIds (bs ++ cs) = resultIds bs ++ resultIds cs :=
  List.filterMap_append bs cs _

theorem resultIds_map_syntheticResult (ids : List String) :
    resultIds (ids.map syntheticResult) = ids := by
  simp [resultIds, syntheticResult, List.filterMap_map, Function.comp_def]

theorem filter_not_contains_nil {ids l : List String} (h : ∀ id ∈ ids, id ∈ l) :
    (ids.filter fun id => !(l.contains id)) = [] := by
  rw [List.filter_eq_nil_iff]
  intro a ha
  simp [h a ha]

theorem mem_append_of_missing {ids present : List String} {id : String}
    (hid : id ∈ ids) :
    id ∈ present ++ ids.filter fun x => !(present.contains x) := by
  by_cases hp : id ∈ present
  · exact List.mem_append_left _ hp
  · refine List.mem_append_right _ ?_
    rw [List.mem_filter]
    exact ⟨hid, by simp [hp]⟩

theorem toolResultIds_synthTurn (ids : List String) :
    toolResultIds (synthTurn ids) = ids := by
  simp [toolResultIds, synthTurn, contentBlocks, resultIds_map_syntheticResult]

/-! ## Idempotence of repair -/

/-- After a run of the repair engine, a repaired assistant/user pair headed
by a synthetic turn needs no further fixes. -/
theorem repair_cons_synthTurn (t : Turn) (tail : List Turn)
    (hguard : isAssistantWithToolUse t = true)
    (htail : repair_incomplete_tool_sequences tail = (tail, [])) :
    repair_incomplete_tool_sequences (t :: synthTurn (toolUseIds t) :: tail) =
      (t :: synthTurn (toolUseIds t) :: tail, []) := by
  have hmiss : ((toolUseIds t).filter fun id =>
      !((resultIds ((toolUseIds t).map syntheticResult)).contains id)) = [] := by
    rw [resultIds_map_syntheticResult]
    exact filter_not_contains_nil fun _ h => h
  simp only [repair_incomplete_tool_sequences, hguard, if_true, synthTurn,
    beq_self_eq_true, if_pos, hmiss, List.map_nil, List.append_nil,
    List.nil_append, htail]

/-- The repair engine is idempotent: a second run performs zero additional
repairs and returns the sequence unchanged. -/
theorem repair_incomplete_tool_sequences_idempotent (S : List Turn) :
    repair_incomplete_tool_sequences (repaired S) = (repaired S, []) := by
  unfold repaired
  induction S using repair_incomplete_tool_sequences.induct with
  | case1 =>
    simp [repair_incomplete_tool_sequences]
  | case2 t hguard =>
    have h1 : repair_incomplete_tool_sequences [t] =
        ([t, synthTurn (toolUseIds t)],
         (toolUseIds t).map fun id => RepairRecord.mk id "missing_following_turn") := by
      simp only [repair_incomplete_tool_sequences, hguard, if_true]
    rw [h1]
    exact repair_cons_synthTurn t [] hguard (by simp [repair_incomplete_tool_sequences])
  | case3 t hguard =>
    simp [repair_incomplete_tool_sequences, hguard]
  | case4 t u rest2 hguard hrole bs hcontent ih =>
    obtain ⟨urole, ucontent⟩ := u
    simp only at hcontent
    subst hcontent
    simp only at hrole
    simp only [repair_incomplete_tool_sequences, hguard, if_true, hrole]
    have hmiss : ((toolUseIds t).filter fun id =>
        !((resultIds (bs ++
          ((toolUseIds t).filter fun id => !((resultIds bs).contains id)).map
            syntheticResult)).contains id)) = [] := by
      rw [resultIds_append, resultIds_map_syntheticResult]
      exact filter_not_contains_nil fun id hid => mem_append_of_missing hid
    simp only [hmiss, List.map_nil, List.append_nil, List.nil_append, ih]
  | case5 t u rest2 hguard hrole s hcontent ih =>
    obtain ⟨urole, ucontent⟩ := u
    simp only at hcontent
    subst hcontent
    simp only at hrole
    have h1 : repair_incomplete_tool_sequences (t :: Turn.mk urole (VContent.str s) :: rest2) =
        (t :: synthTurn (toolUseIds t) :: (repair_incomplete_tool_sequences rest2).1,
         ((toolUseIds t).map fun id => RepairRecord.mk id "missing_following_turn") ++
           (repair_incomplete_tool_sequences rest2).2) := by
      simp only [repair_incomplete_tool_sequences, hguard, if_true, hrole]
    rw [h1]
    exact repair_cons_synthTurn t _ hguard ih
  | case6 t u rest2 hguard hrole ih =>
    have h1 : repair_incomplete_tool_sequences (t :: u :: rest2) =
        (t :: synthTurn (toolUseIds t) :: (repair_incomplete_tool_sequences (u :: rest2)).1,
         ((toolUseIds t).map fun id => RepairRecord.mk id "missing_following_turn") ++
           (repair_incomplete_tool_sequences (u :: rest2)).2) := by
      simp only [repair_incomplete_tool_sequences, hguard, if_true, hrole,
        Bool.false_eq_true, if_false]
    rw [h1]
    exact repair_cons_synthTurn t _ hguard ih
  | case7 t u rest2 hguard ih =>
    simp only [repair_incomplete_tool_sequences, hguard, Bool.false_eq_true, if_false]
    rcases htail : (repair_incomplete_tool_sequences (u :: rest2)).1 with _ | ⟨x, xs⟩
    · simp [repair_incomplete_tool_sequences, hguard]
    · rw [htail] at ih
      simp only [repair_incomplete_tool_sequences, hguard, Bool.false_eq_true, if_false, ih]

/-! ## Shape of the repaired sequence -/

/-- Every block of a synthetic turn is synthetic. -/
theorem synthTurn_blocks_synthetic (ids : List String) :
    ∀ b ∈ (ids.map syntheticResult), IsSynthetic b := by
  intro b hb
  rw [List.mem_map] at hb
  obtain ⟨id, _, hb⟩ := hb
  exact ⟨id, hb.symm⟩

theorem isAssistantWithToolUse_false_of_role {t : Turn} (h : t.role ≠ "assistant") :
    isAssistantWithToolUse t = false := by
  simp [isAssistantWithToolUse, h]

theorem pairOK_of_not_assistant {t : Turn} (rest : List Turn)
    (h : isAssistantWithToolUse t ≠ true) : pairOK t rest := by
  intro hguard
  exact absurd hguard h

theorem pairOK_user (t : Turn) (rest : List Turn) (h : t.role = "user") :
    pairOK t rest := by
  intro hguard
  rw [isAssistantWithToolUse_false_of_role (by rw [h]; decide)] at hguard
  cases hguard

/-- The repair engine only keeps, appends to, replaces-by-synthetics or
inserts turns: the repaired sequence is related to the input by an edit
script that preserves all existing blocks and their relative order and only
appends synthetic placeholder results after them. -/
theorem repair_shape (S : List Turn) : RepairRel S (repaired S) := by
  unfold repaired
  induction S using repair_incomplete_tool_sequences.induct with
  | case1 =>
    exact RepairRel.nil
  | case2 t hguard =>
    have h1 : (repair_incomplete_tool_sequences [t]).1 = [t, synthTurn (toolUseIds t)] := by
      simp only [repair_incomplete_tool_sequences, hguard, if_true]
    rw [h1]
    exact RepairRel.keep t
      (RepairRel.insertTurn _ (synthTurn_blocks_synthetic _) RepairRel.nil)
  | case3 t hguard =>
    have h1 : (repair_incomplete_tool_sequences [t]).1 = [t] := by
      simp only [repair_incomplete_tool_sequences, hguard, Bool.false_eq_true, if_false]
    rw [h1]
    exact RepairRel.keep t RepairRel.nil
  | case4 t u rest2 hguard hrole bs hcontent ih =>
    obtain ⟨urole, ucontent⟩ := u
    simp only at hcontent hrole
    subst hcontent
    have hrole2 : urole = "user" := by
      exact eq_of_beq hrole
    subst hrole2
    have h1 : (repair_incomplete_tool_sequences
        (t :: Turn.mk "user" (VContent.blocks bs) :: rest2)).1 =
        t :: Turn.mk "user" (VContent.blocks (bs ++
          ((toolUseIds t).filter fun id => !((resultIds bs).contains id)).map
            syntheticResult)) :: (repair_incomplete_tool_sequences rest2).1 := by
      simp only [repair_incomplete_tool_sequences, hguard, if_true, beq_self_eq_true]
    rw [h1]
    exact RepairRel.keep t
      (RepairRel.appendBlocks "user" bs _ (synthTurn_blocks_synthetic _) ih)
  | case5 t u rest2 hguard hrole s hcontent ih =>
    obtain ⟨urole, ucontent⟩ := u
    simp only at hcontent hrole
    subst hcontent
    have hrole2 : urole = "user" := eq_of_beq hrole
    subst hrole2
    have h1 : (repair_incomplete_tool_sequences
        (t :: Turn.mk "user" (VContent.str s) :: rest2)).1 =
        t :: synthTurn (toolUseIds t) :: (repair_incomplete_tool_sequences rest2).1 := by
      simp only [repair_incomplete_tool_sequences, hguard, if_true, beq_self_eq_true]
    rw [h1]
    exact RepairRel.keep t
      (RepairRel.replaceStr s _ (synthTurn_blocks_synthetic _) ih)
  | case6 t u rest2 hguard hrole ih =>
    have h1 : (repair_incomplete_tool_sequences (t :: u :: rest2)).1 =
        t :: synthTurn (toolUseIds t) :: (repair_incomplete_tool_sequences (u :: rest2)).1 := by
      simp only [repair_incomplete_tool_sequences, hguard, if_true, hrole,
        Bool.false_eq_true, if_false]
    rw [h1]
    exact RepairRel.keep t
      (RepairRel.insertTurn _ (synthTurn_blocks_synthetic _) ih)
  | case7 t u rest2 hguard ih =>
    have h1 : (repair_incomplete_tool_sequences (t :: u :: rest2)).1 =
        t :: (repair_incomplete_tool_sequences (u :: rest2)).1 := by
      simp only [repair_incomplete_tool_sequences, hguard, Bool.false_eq_true, if_false]
    rw [h1]
    exact RepairRel.keep t ih

/-- After repair, every assistant turn carrying `tool_use` blocks is followed
by a covering user turn. -/
theorem repair_wellFormedPairs (S : List Turn) : wellFormedPairs (repaired S) := by
  unfold repaired
  induction S using repair_incomplete_tool_sequences.induct with
  | case1 =>
    trivial
  | case2 t hguard =>
    have h1 : (repair_incomplete_tool_sequences [t]).1 = [t, synthTurn (toolUseIds t)] := by
      simp only [repair_incomplete_tool_sequences, hguard, if_true]
    rw [h1]
    refine ⟨?_, ?_, trivial⟩
    · intro _
      exact ⟨rfl, by rw [toolResultIds_synthTurn]; exact fun id h => h⟩
    · exact pairOK_user _ _ rfl
  | case3 t hguard =>
    have h1 : (repair_incomplete_tool_sequences [t]).1 = [t] := by
      simp only [repair_incomplete_tool_sequences, hguard, Bool.false_eq_true, if_false]
    rw [h1]
    exact ⟨pairOK_of_not_assistant _ hguard, trivial⟩
  | case4 t u rest2 hguard hrole bs hcontent ih =>
    obtain ⟨urole, ucontent⟩ := u
    simp only at hcontent hrole
    subst hcontent
    have hrole2 : urole = "user" := eq_of_beq hrole
    subst hrole2
    have h1 : (repair_incomplete_tool_sequences
        (t :: Turn.mk "user" (VContent.blocks bs) :: rest2)).1 =
        t :: Turn.mk "user" (VContent.blocks (bs ++
          ((toolUseIds t).filter fun id => !((resultIds bs).contains id)).map
            syntheticResult)) :: (repair_incomplete_tool_sequences rest2).1 := by
      simp only [repair_incomplete_tool_sequences, hguard, if_true, beq_self_eq_true]
    rw [h1]
    refine ⟨?_, ?_, ih⟩
    · intro _
      refine ⟨rfl, ?_⟩
      intro id hid
      rw [toolResultIds, contentBlocks]
      rw [resultIds_append, resultIds_map_syntheticResult]
      exact mem_append_of_missing hid
    · exact pairOK_user _ _ rfl
  | case5 t u rest2 hguard hrole s hcontent ih =>
    obtain ⟨urole, ucontent⟩ := u
    simp only at hcontent hrole
    subst hcontent
    have hrole2 : urole = "user" := eq_of_beq hrole
    subst hrole2
    have h1 : (repair_incomplete_tool_sequences
        (t :: Turn.mk "user" (VContent.str s) :: rest2)).1 =
        t :: synthTurn (toolUseIds t) :: (repair_incomplete_tool_sequences rest2).1 := by
      simp only [repair_incomplete_tool_sequences, hguard, if_true, beq_self_eq_true]
    rw [h1]
    refine ⟨?_, ?_, ih⟩
    · intro _
      exact ⟨rfl, by rw [toolResultIds_synthTurn]; exact fun id h => h⟩
    · exact pairOK_user _ _ rfl
  | case6 t u rest2 hguard hrole ih =>
    have h1 : (repair_incomplete_tool_sequences (t :: u :: rest2)).1 =
        t :: synthTurn (toolUseIds t) :: (repair_incomplete_tool_sequences (u :: rest2)).1 := by
      simp only [repair_incomplete_tool_sequences, hguard, if_true, hrole,
        Bool.false_eq_true, if_false]
    rw [h1]
    refine ⟨?_, ?_, ih⟩
    · intro _
      exact ⟨rfl, by rw [toolResultIds_synthTurn]; exact fun id h => h⟩
    · exact pairOK_user _ _ rfl
  | case7 t u rest2 hguard ih =>
    have h1 : (repair_incomplete_tool_sequences (t :: u :: rest2)).1 =
        t :: (repair_incomplete_tool_sequences (u :: rest2)).1 := by
      simp only [repair_incomplete_tool_sequences, hguard, Bool.false_eq_true, if_false]
    rw [h1]
    exact ⟨pairOK_of_not_assistant _ hguard, ih⟩

/-! ## Validator characterization -/

theorem mem_of_filter_nil {l res : List String} {id : String}
    (h : (l.filter fun x => !(res.contains x)) = []) (hid : id ∈ l) :
    id ∈ res := by
  have h2 := (List.filter_eq_nil_iff.mp h) id hid
  simpa using h2

theorem validate_ok_iff (S : List Turn) :
    validate_anthropic_tool_consistency S = Except.ok () ↔ ValidSeq S := by
  induction S with
  | nil =>
    simp [validate_anthropic_tool_consistency, ValidSeq]
  | cons t rest ih =>
    by_cases hguard : isAssistantWithToolUse t = true
    · cases rest with
      | nil =>
        simp only [validate_anthropic_tool_consistency, hguard, if_true]
        constructor
        · intro h
          cases h
        · intro h
          exact absurd (h.1 hguard) id
      | cons u rest2 =>
        by_cases hrole : u.role = "user"
        · have hrole2 : (u.role != "user") = false := by simp [hrole]
          by_cases hmiss :
              ((toolUseIds t).filter fun id => !((toolResultIds u).contains id)) = []
          · by_cases horph :
                ((toolResultIds u).filter fun id => !((toolUseIds t).contains id)) = []
            · have hval : validate_anthropic_tool_consistency (t :: u :: rest2) =
                  validate_anthropic_tool_consistency (u :: rest2) := by
                simp only [validate_anthropic_tool_consistency, hguard, if_true, hrole2,
                  Bool.false_eq_true, if_false, hmiss, horph, List.isEmpty_nil,
                  Bool.not_true]
              rw [hval, ih]
              constructor
              · intro h
                exact ⟨fun _ => ⟨hrole, fun id hid => mem_of_filter_nil hmiss hid,
                  fun id hid => mem_of_filter_nil horph hid⟩, h⟩
              · intro h
                exact h.2
            · have horph2 : (((toolResultIds u).filter fun id =>
                  !((toolUseIds t).contains id)).isEmpty) = false := by
                simpa [List.isEmpty_iff] using horph
              have hval : validate_anthropic_tool_consistency (t :: u :: rest2) =
                  Except.error ("tool_result without matching tool_use: ids " ++
                    String.intercalate ", " ((toolResultIds u).filter fun id =>
                      !((toolUseIds t).contains id))) := by
                simp only [validate_anthropic_tool_consistency, hguard, if_true, hrole2,
                  Bool.false_eq_true, if_false, hmiss, List.isEmpty_nil,
                  Bool.not_true, horph2, Bool.not_false]
              rw [hval]
              constructor
              · intro h
                cases h
              · intro h
                obtain ⟨id, hidmem⟩ :=
                  List.exists_mem_of_ne_nil _ horph
                have hid2 := List.mem_filter.mp hidmem
                have hid3 : id ∉ toolUseIds t := by
                  simpa using hid2.2
                exact absurd ((h.1 hguard).2.2 id hid2.1) hid3
          · have hmiss2 : (((toolUseIds t).filter fun id =>
                !((toolResultIds u).contains id)).isEmpty) = false := by
              simpa [List.isEmpty_iff] using hmiss
            have hval : validate_anthropic_tool_consistency (t :: u :: rest2) =
                Except.error ("missing matching tool_result for ids " ++
                  String.intercalate ", " ((toolUseIds t).filter fun id =>
                    !((toolResultIds u).contains id))) := by
              simp only [validate_anthropic_tool_consistency, hguard, if_true, hrole2,
                Bool.false_eq_true, if_false, hmiss2, Bool.not_false]
            rw [hval]
            constructor
            · intro h
              cases h
            · intro h
              obtain ⟨id, hidmem⟩ := List.exists_mem_of_ne_nil _ hmiss
              have hid2 := List.mem_filter.mp hidmem
              have hid3 : id ∉ toolResultIds u := by
                simpa using hid2.2
              exact absurd ((h.1 hguard).2.1 id hid2.1) hid3
        · have hrole2 : (u.role != "user") = true := by
            simpa using hrole
          have hval : validate_anthropic_tool_consistency (t :: u :: rest2) =
              Except.error ("expected user role with tool_results after tool_use, got role "
                ++ u.role) := by
            simp only [validate_anthropic_tool_consistency, hguard, if_true, hrole2]
          rw [hval]
          constructor
          · intro h
            cases h
          · intro h
            exact absurd (h.1 hguard).1 hrole
    · have hval : validate_anthropic_tool_consistency (t :: rest) =
          validate_anthropic_tool_consistency rest := by
        simp only [validate_anthropic_tool_consistency, hguard, Bool.false_eq_true, if_false]
      rw [hval, ih]
      constructor
      · intro h
        exact ⟨fun hg => absurd hg hguard, h⟩
      · intro h
        exact h.2

/-- A sequence with no tool blocks at all always passes validation. -/
theorem validate_ok_of_noToolBlocks (S : List Turn) (h : NoToolBlocks S) :
    validate_anthropic_tool_consistency S = Except.ok () := by
  induction S with
  | nil =>
    rfl
  | cons t rest ih =>
    have hguard : isAssistantWithToolUse t = false := by
      simp [isAssistantWithToolUse, (h t (by simp)).1]
    have hval : validate_anthropic_tool_consistency (t :: rest) =
        validate_anthropic_tool_consistency rest := by
      simp only [validate_anthropic_tool_consistency, hguard, Bool.false_eq_true, if_false]
    rw [hval]
    exact ih fun x hx => h x (by simp [hx])

/-! ## Converter: context-first policy and tool-run batching -/

theorem takeWhile_append_of_all {α : Type} {p : α → Bool} {l1 l2 : List α}
    (h : ∀ m ∈ l1, p m = true) :
    (l1 ++ l2).takeWhile p = l1 ++ l2.takeWhile p := by
  induction l1 with
  | nil => simp
  | cons x xs ih =>
    simp only [List.cons_append, List.takeWhile_cons, h x (by simp), if_true]
    rw [ih fun m hm => h m (by simp [hm])]

theorem dropWhile_append_of_all {α : Type} {p : α → Bool} {l1 l2 : List α}
    (h : ∀ m ∈ l1, p m = true) :
    (l1 ++ l2).dropWhile p = l2.dropWhile p := by
  induction l1 with
  | nil => simp
  | cons x xs ih =>
    simp only [List.cons_append, List.dropWhile_cons, h x (by simp), if_true]
    exact ih fun m hm => h m (by simp [hm])

/-- Each maximal run of consecutive tool-role messages is converted into
exactly one user turn carrying one `tool_result` block per original tool
message, in the original order, and conversion then continues after the
run. -/
theorem convert_messages_tool_run (tools rest : List Message)
    (htools : ∀ m ∈ tools, m.role = "tool")
    (hne : tools ≠ [])
    (hrest : ∀ r, rest.head? = some r → r.role ≠ "tool") :
    convert_messages (tools ++ rest) =
      Turn.mk "user" (VContent.blocks (tools.map toolResultBlockOf)) ::
        convert_messages rest := by
  obtain ⟨m, ms, rfl⟩ := List.exists_cons_of_ne_nil hne
  have hm : m.role = "tool" := htools m (by simp)
  have hms : ∀ x ∈ ms, isToolRole x = true := by
    intro x hx
    simp [isToolRole, htools x (by simp [hx])]
  have htake : (ms ++ rest).takeWhile isToolRole = ms := by
    rw [takeWhile_append_of_all hms]
    cases hr : rest with
    | nil => simp
    | cons r rs =>
      have : isToolRole r = false := by
        simp [isToolRole, hrest r (by rw [hr]; rfl)]
      simp [List.takeWhile_cons, this]
  have hdrop : (ms ++ rest).dropWhile isToolRole = rest := by
    rw [dropWhile_append_of_all hms]
    cases hr : rest with
    | nil => simp
    | cons r rs =>
      have : isToolRole r = false := by
        simp [isToolRole, hrest r (by rw [hr]; rfl)]
      simp [List.dropWhile_cons, this]
  have hsys : (m.role == "system") = false := by simp [hm]
  have htoolb : (m.role == "tool") = true := by simp [hm]
  rw [List.cons_append]
  conv_lhs => rw [convert_messages]
  simp only [hsys, Bool.false_eq_true, if_false, htoolb, if_true, htake, hdrop]

/-- The converted output of `_complete_chat_request` puts the wrapped
developer messages first, in their original relative order, followed by the
converted conversation. -/
theorem all_messages_context_first (msgs : List Message) :
    (all_messages msgs).take (developer_msgs msgs).length =
      (developer_msgs msgs).map
        (fun m => Turn.mk "user" (VContent.str (wrap_context m.content))) ∧
    (all_messages msgs).drop (developer_msgs msgs).length =
      convert_messages (conversation msgs) := by
  unfold all_messages context_user_msgs
  constructor
  · rw [show (developer_msgs msgs).length =
      ((developer_msgs msgs).map
        (fun m => Turn.mk "user" (VContent.str (wrap_context m.content)))).length by
      simp]
    exact List.take_left _ _
  · rw [show (developer_msgs msgs).length =
      ((developer_msgs msgs).map
        (fun m => Turn.mk "user" (VContent.str (wrap_context m.content)))).length by
      simp]
    exact List.drop_left _ _

/-! ## Normalizer lemmas -/

/-- The finalized tool-call list surfaced to the caller is the filter of the
normalized tool calls on non-empty argument mappings. -/
theorem parse_tool_calls_convert (v : AnthropicResponse) :
    parse_tool_calls (convert_to_chat_response v) =
      (v.content.filterMap toolCallOf).filter fun tc => !tc.arguments.isEmpty := by
  unfold parse_tool_calls convert_to_chat_response
  cases htcs : (v.content.filterMap toolCallOf).isEmpty
  · simp only [htcs, Bool.false_eq_true, if_false]
  · rw [List.isEmpty_iff] at htcs
    simp [htcs]

theorem mem_filterMap_toolCallOf {v : AnthropicResponse} {id name : String}
    {args : ArgMap} (h : RespBlock.toolUse id name args ∈ v.content) :
    ToolCall.mk id name args ∈ v.content.filterMap toolCallOf := by
  rw [List.mem_filterMap]
  exact ⟨RespBlock.toolUse id name args, h, rfl⟩

/-! ## The failing input for the orchestrator claim -/

theorem all_messages_c1 :
    all_messages c1_request_messages =
      [Turn.mk "user" (VContent.str "Run ls"),
       Turn.mk "assistant" (VContent.blocks [Block.toolUse "toolu_123" "bash" [("cmd", "ls")]]),
       Turn.mk "user" (VContent.str "Thanks")] := by
  simp +decide [all_messages, context_user_msgs, developer_msgs, conversation,
    c1_request_messages, convert_messages, assistantBlocks]

theorem toolCallOf_eq_none_iff (b : RespBlock) :
    toolCallOf b = none ↔ isToolUseBlock b = false := by
  cases b <;> simp [toolCallOf, isToolUseBlock]

/-! ## Claim theorems -/

/-- C1: the claim says `_complete_chat_request` repairs and validates the
turn sequence before the vendor call and aborts on validation failure.  The
source applies no such step: the sequence it assembles (`all_messages`) for
the transcript of `test_repair_creates_synthetic_user_message` — an
assistant `tool_use` whose result message is missing — fails the
tool-sequence validator and requires one repair, yet it is passed to the
vendor API unchanged. -/
theorem claim_C1_no_repair_before_api_call :
    validate_anthropic_tool_consistency (all_messages c1_request_messages) =
      Except.error "missing matching tool_result for ids toolu_123" ∧
    repairRecords (all_messages c1_request_messages) =
      [RepairRecord.mk "toolu_123" "missing_following_turn"] := by
  rw [all_messages_c1]
  exact ⟨rfl, rfl⟩

/-- C2: the tool-sequence repair operation is idempotent: repairing an
already-repaired sequence returns it unchanged and performs zero additional
repairs. -/
theorem claim_C2_repair_idempotent (S : List Turn) :
    repaired (repaired S) = repaired S ∧ repairRecords (repaired S) = [] := by
  have h := repair_incomplete_tool_sequences_idempotent S
  constructor
  · show (repair_incomplete_tool_sequences (repaired S)).1 = repaired S
    rw [h]
  · show (repair_incomplete_tool_sequences (repaired S)).2 = []
    rw [h]

/-- C3: after repair, every assistant turn carrying `tool_use` blocks is
immediately followed by a user turn whose `tool_result` ids cover its
`tool_use` ids; and the repaired sequence arises from the input by an edit
script that keeps every existing block in its relative order and only appends
synthetic placeholder `tool_result` blocks after existing blocks, replaces
string contents, or inserts fresh synthetic user turns — it never removes or
reorders existing blocks. -/
theorem claim_C3_repair_covers_and_preserves (S : List Turn) :
    wellFormedPairs (repaired S) ∧ RepairRel S (repaired S) :=
  ⟨repair_wellFormedPairs S, repair_shape S⟩

/-- C4: the tool-sequence validator succeeds exactly when every assistant
turn carrying `tool_use` blocks is followed by a user turn whose
`tool_result` ids match its `tool_use` ids in both directions; a sequence
with no tool blocks at all always passes. -/
theorem claim_C4_validator_characterization (S : List Turn) :
    (validate_anthropic_tool_consistency S = Except.ok () ↔ ValidSeq S) ∧
    (NoToolBlocks S → validate_anthropic_tool_consistency S = Except.ok ()) :=
  ⟨validate_ok_iff S, validate_ok_of_noToolBlocks S⟩

theorem claim_C4_validator_characterization_witness :
    NoToolBlocks
      [Turn.mk "user" (VContent.str "Hello"),
       Turn.mk "assistant" (VContent.str "Hi there!")] ∧
    validate_anthropic_tool_consistency
      [Turn.mk "user" (VContent.str "Hello"),
       Turn.mk "assistant" (VContent.str "Hi there!")] = Except.ok () :=
  ⟨by decide, (claim_C4_validator_characterization _).2 (by decide)⟩

/-- C5: the assembled request starts with one user turn per developer
message, wrapped in the fixed context delimiter and kept in the developer
messages' original relative order, and everything after those context turns
is exactly the converted conversation — so every context turn precedes every
conversation turn, wherever the developer messages sat in the input. -/
theorem claim_C5_context_turns_first (msgs : List Message) :
    (all_messages msgs).take (developer_msgs msgs).length =
      (developer_msgs msgs).map
        (fun m => Turn.mk "user" (VContent.str (wrap_context m.content))) ∧
    (all_messages msgs).drop (developer_msgs msgs).length =
      convert_messages (conversation msgs) :=
  all_messages_context_first msgs

/-- C6: a maximal run of consecutive tool-role messages is converted into
exactly one user turn carrying one `tool_result` block per original tool
message in the original order — no tool message is dropped — and a tool
message lacking a `tool_call_id` contributes a block with the placeholder id
`"unknown"`. -/
theorem claim_C6_tool_run_batching (tools rest : List Message)
    (htools : ∀ m ∈ tools, m.role = "tool")
    (hne : tools ≠ [])
    (hrest : ∀ r, rest.head? = some r → r.role ≠ "tool") :
    convert_messages (tools ++ rest) =
      Turn.mk "user" (VContent.blocks (tools.map toolResultBlockOf)) ::
        convert_messages rest ∧
    ∀ m ∈ tools, missingToolCallId m = true →
      toolResultBlockOf m = Block.toolResult "unknown" m.content := by
  refine ⟨convert_messages_tool_run tools rest htools hne hrest, ?_⟩
  intro m _ hm
  unfold toolResultBlockOf
  unfold missingToolCallId at hm
  cases h : m.tool_call_id with
  | none => rfl
  | some s =>
    rw [h] at hm
    have hs : s = "" := by simpa using hm
    simp [hs]

theorem claim_C6_tool_run_batching_witness :
    convert_messages
        ([Message.mk "tool" "r1" (some "a") [] none,
          Message.mk "tool" "r2" none [] none] ++
         [Message.mk "user" "bye" none [] none]) =
      Turn.mk "user" (VContent.blocks
        [Block.toolResult "a" "r1", Block.toolResult "unknown" "r2"]) ::
        convert_messages [Message.mk "user" "bye" none [] none] :=
  (claim_C6_tool_run_batching _ _ (by decide) (by decide)
    (by intro r hr; cases hr; decide)).1

/-- C7: tool calls whose argument mapping is empty are excluded from the
finalized tool-call list returned by `parse_tool_calls`, while their blocks
remain in the normalized response content; tool calls with non-empty
arguments are kept. -/
theorem claim_C7_empty_arguments_filtered (v : AnthropicResponse) :
    (∀ tc ∈ parse_tool_calls (convert_to_chat_response v), tc.arguments ≠ []) ∧
    (∀ id name, RespBlock.toolUse id name [] ∈ v.content →
      CBlock.toolCallB id name [] ∈ (convert_to_chat_response v).content ∧
      ToolCall.mk id name [] ∉ parse_tool_calls (convert_to_chat_response v)) ∧
    (∀ id name args, args ≠ [] → RespBlock.toolUse id name args ∈ v.content →
      ToolCall.mk id name args ∈ parse_tool_calls (convert_to_chat_response v)) := by
  have hp := parse_tool_calls_convert v
  refine ⟨?_, ?_, ?_⟩
  · intro tc htc
    rw [hp, List.mem_filter] at htc
    simpa using htc.2
  · intro id name hmem
    constructor
    · show CBlock.toolCallB id name [] ∈ v.content.map convBlock
      rw [List.mem_map]
      exact ⟨RespBlock.toolUse id name [], hmem, rfl⟩
    · rw [hp]
      intro hin
      rw [List.mem_filter] at hin
      simp at hin
  · intro id name args hargs hmem
    rw [hp, List.mem_filter]
    refine ⟨mem_filterMap_toolCallOf hmem, ?_⟩
    simpa using hargs

theorem claim_C7_empty_arguments_filtered_witness :
    ToolCall.mk "t1" "bash" [] ∉ parse_tool_calls (convert_to_chat_response c7_response) ∧
    CBlock.toolCallB "t1" "bash" [] ∈ (convert_to_chat_response c7_response).content ∧
    ToolCall.mk "t2" "read" [("path", "x")] ∈
      parse_tool_calls (convert_to_chat_response c7_response) :=
  ⟨((claim_C7_empty_arguments_filtered c7_response).2.1 "t1" "bash" (by decide)).2,
   ((claim_C7_empty_arguments_filtered c7_response).2.1 "t1" "bash" (by decide)).1,
   (claim_C7_empty_arguments_filtered c7_response).2.2 "t2" "read" _ (by decide) (by decide)⟩

/-- C8: the normalized usage copies the vendor input and output token counts
unchanged and reports a total equal to their exact sum. -/
theorem claim_C8_usage_counters_summed (v : AnthropicResponse) :
    (convert_to_chat_response v).usage.input_tokens = v.usage.input_tokens ∧
    (convert_to_chat_response v).usage.output_tokens = v.usage.output_tokens ∧
    (convert_to_chat_response v).usage.total_tokens =
      v.usage.input_tokens + v.usage.output_tokens :=
  ⟨rfl, rfl, rfl⟩

/-- C9: the normalized `tool_calls` field is `none` exactly when the vendor
response has no `tool_use` block, and whenever it is `some` list, that list
is non-empty — it is never an empty list. -/
theorem claim_C9_tool_calls_none_not_empty (v : AnthropicResponse) :
    ((convert_to_chat_response v).tool_calls = none ↔
      ∀ b ∈ v.content, isToolUseBlock b = false) ∧
    (∀ l, (convert_to_chat_response v).tool_calls = some l → l ≠ []) := by
  have hcalls : (convert_to_chat_response v).tool_calls =
      if (v.content.filterMap toolCallOf).isEmpty then none
      else some (v.content.filterMap toolCallOf) := rfl
  constructor
  · rw [hcalls]
    cases htcs : (v.content.filterMap toolCallOf).isEmpty
    · simp only [Bool.false_eq_true, if_false]
      rw [List.isEmpty_eq_false_iff_exists_mem] at htcs
      obtain ⟨tc, htc⟩ := htcs
      rw [List.mem_filterMap] at htc
      obtain ⟨b, hb, hcall⟩ := htc
      constructor
      · intro h
        cases h
      · intro h
        have h2 := (toolCallOf_eq_none_iff b).mpr (h b hb)
        rw [h2] at hcall
        cases hcall
    · simp only [if_true]
      rw [List.isEmpty_iff] at htcs
      constructor
      · intro _ b hb
        have : toolCallOf b = none := by
          have := List.filterMap_eq_nil_iff.mp htcs b hb
          exact this
        exact (toolCallOf_eq_none_iff b).mp this
      · intro _
        trivial
  · intro l hl
    rw [hcalls] at hl
    cases htcs : (v.content.filterMap toolCallOf).isEmpty
    · rw [htcs] at hl
      simp only [Bool.false_eq_true, if_false, Option.some.injEq] at hl
      subst hl
      intro hnil
      rw [hnil] at htcs
      cases htcs
    · rw [htcs] at hl
      simp at hl

theorem claim_C9_tool_calls_none_not_empty_witness :
    (convert_to_chat_response
      (AnthropicResponse.mk [RespBlock.text "hi"] (AnthropicUsage.mk 1 2) "end_turn")).tool_calls
      = none ∧
    ¬(convert_to_chat_response c7_response).tool_calls = some [] :=
  ⟨(claim_C9_tool_calls_none_not_empty _).1.mpr (by decide),
   fun h => (claim_C9_tool_calls_none_not_empty c7_response).2 [] h rfl⟩

/-- C10: a falsy (`None` or `0`) `max_output_tokens` or `temperature` request
field is silently replaced by the configured default, so an explicitly
requested zero is never forwarded; a non-zero requested value passes through
unchanged. -/
theorem claim_C10_falsy_fields_defaulted (kwargs_max : Option Nat) (self_max : Nat)
    (kwargs_temp : Option ℚ) (self_temp : ℚ) :
    resolved_max_tokens none kwargs_max self_max = kwargs_max.getD self_max ∧
    resolved_max_tokens (some 0) kwargs_max self_max = kwargs_max.getD self_max ∧
    (∀ n : Nat, n ≠ 0 → resolved_max_tokens (some n) kwargs_max self_max = n) ∧
    resolved_temperature none kwargs_temp self_temp = kwargs_temp.getD self_temp ∧
    resolved_temperature (some 0) kwargs_temp self_temp = kwargs_temp.getD self_temp ∧
    (∀ q : ℚ, q ≠ 0 → resolved_temperature (some q) kwargs_temp self_temp = q) := by
  refine ⟨rfl, by simp [resolved_max_tokens, py_or_nat], ?_, rfl,
    by simp [resolved_temperature, py_or_rat], ?_⟩
  · intro n hn
    simp [resolved_max_tokens, py_or_nat, hn]
  · intro q hq
    simp [resolved_temperature, py_or_rat, hq]

theorem claim_C10_falsy_fields_defaulted_witness :
    resolved_max_tokens (some 0) none 4096 = 4096 ∧
    resolved_temperature (some 0) none (7 / 10) = 7 / 10 ∧
    resolved_max_tokens (some 2048) none 4096 = 2048 :=
  ⟨(claim_C10_falsy_fields_defaulted none 4096 none (7 / 10)).2.1,
   (claim_C10_falsy_fields_defaulted none 4096 none (7 / 10)).2.2.2.2.1,
   (claim_C10_falsy_fields_defaulted none 4096 none (7 / 10)).2.2.1 2048 (by decide)⟩

end AmplifierAnthropic
